import Mathlib

/-!
Verification of the client-side state-reconciliation core of the
Developer-Assistant frontend: the project mirror store, the run state
machine with its single-flight completion reconciler, the optimistic
file-mutation handlers, and the debounced persistence buffer.
All definitions are shallow embeddings of the TypeScript sources
(state/ProjectStore.tsx, state/runStore.ts, state/applyProject.ts,
CodeEditor.tsx, hooks/useRenameFile.ts, hooks/useDebouncedFileSave.ts,
hooks/useKillRun.ts, runView.tsx).
-/

/-- A file of the project mirror (`ProjectFile` in state/ProjectStore.tsx). -/
structure ProjectFile where
  name : String
  content : String
deriving DecidableEq, Repr

/-- A chat message (`Message` in state/ProjectStore.tsx). -/
structure Message where
  id : Nat
  content : String
  fromUser : Bool
deriving DecidableEq, Repr

/-- The project record held by the mirror (`Project` in state/ProjectStore.tsx).
`activeFile` merges the TypeScript `string | null | undefined` into `Option`. -/
structure Project where
  id : String
  title : String
  files : List ProjectFile
  activeFile : Option String
  messages : List Message
  isPending : Bool
deriving DecidableEq, Repr

/-- State of the zustand project store: the project (nullable) and the
store-level `ready` flag (state/ProjectStore.tsx). -/
structure ProjectStoreState where
  project : Option Project
  ready : Bool
deriving DecidableEq, Repr

namespace ProjectStoreState

/-- `setReady` action of the project store. -/
def setReady (r : Bool) (s : ProjectStoreState) : ProjectStoreState :=
  { s with ready := r }

/-- `renameProject` action: replaces the title when a project exists. -/
def renameProject (newTitle : String) (s : ProjectStoreState) : ProjectStoreState :=
  match s.project with
  | none => s
  | some p => { s with project := some { p with title := newTitle } }

/-- `setId` action: replaces the project identifier when a project exists. -/
def setId (id : String) (s : ProjectStoreState) : ProjectStoreState :=
  match s.project with
  | none => s
  | some p => { s with project := some { p with id := id } }

/-- `setMessages` action: replaces the message log when a project exists. -/
def setMessages (messages : List Message) (s : ProjectStoreState) : ProjectStoreState :=
  match s.project with
  | none => s
  | some p => { s with project := some { p with messages := messages } }

/-- `setIsPending` action: sets the pending flag when a project exists. -/
def setIsPending (v : Bool) (s : ProjectStoreState) : ProjectStoreState :=
  match s.project with
  | none => s
  | some p => { s with project := some { p with isPending := v } }

/-- `setActiveFile` action: sets the selection unconditionally (when a
project exists); the store itself performs no validity check here. -/
def setActiveFile (fileName : Option String) (s : ProjectStoreState) : ProjectStoreState :=
  match s.project with
  | none => s
  | some p => { s with project := some { p with activeFile := fileName } }

/-- `setFiles` action: replaces the file collection and recomputes the
selection: keep the current selection if a file of that name is in the new
collection, else fall back to the first file, else `none`
(`files.find(f => f.name === activeFile)?.name ?? files[0]?.name ?? null`). -/
def setFiles (files : List ProjectFile) (s : ProjectStoreState) : ProjectStoreState :=
  match s.project with
  | none => s
  | some p =>
    let found : Option String :=
      match p.activeFile with
      | some a => (files.find? (fun f => f.name == a)).map ProjectFile.name
      | none => none
    let nextActive := found.orElse (fun _ => (files.head?).map ProjectFile.name)
    { s with project := some { p with files := files, activeFile := nextActive } }

/-- `deleteFile` action: removes every file of that name; if the removed
file was selected, the selection falls back to the first remaining file or
`none`. -/
def deleteFile (fileName : String) (s : ProjectStoreState) : ProjectStoreState :=
  match s.project with
  | none => s
  | some p =>
    let nextFiles := p.files.filter (fun f => f.name != fileName)
    let nextActive :=
      if p.activeFile = some fileName then (nextFiles.head?).map ProjectFile.name
      else p.activeFile
    { s with project := some { p with files := nextFiles, activeFile := nextActive } }

/-- `updateFile` action: replaces the content of every file of that name. -/
def updateFile (fileName newContent : String) (s : ProjectStoreState) : ProjectStoreState :=
  match s.project with
  | none => s
  | some p =>
    let files := p.files.map (fun f =>
      if f.name == fileName then { f with content := newContent } else f)
    { s with project := some { p with files := files } }

/-- `addFile` action of the store: appends the file to the collection. -/
def addFile (file : ProjectFile) (s : ProjectStoreState) : ProjectStoreState :=
  match s.project with
  | none => s
  | some p => { s with project := some { p with files := p.files ++ [file] } }

/-- `addMessage` action: appends a message whose id is the last message id
(or 0) plus one. -/
def addMessage (content : String) (fromUser : Bool) (s : ProjectStoreState) : ProjectStoreState :=
  match s.project with
  | none => s
  | some p =>
    let newId := ((p.messages.getLast?).map Message.id).getD 0 + 1
    let p2 := { p with messages := p.messages ++ [⟨newId, content, fromUser⟩] }
    { s with project := some p2 }

end ProjectStoreState

/-- The status of one pipeline step (`StepState` in state/runStore.ts). -/
inductive StepState where
  | queued
  | running
  | done
  | failed
deriving DecidableEq, Repr

/-- The kind of a run (`RunType` in state/runStore.ts). -/
inductive RunType where
  | generate
  | modify
deriving DecidableEq, Repr

/-- Inbound run events as discriminated by `pushEvent` (types/run-events.ts
plus the local `DoneEvent` widening in state/runStore.ts, which reads the
optional `projectId` / `project_id` fields off a `done` event). The
`other` constructor covers `router.result`, `plan.ready` and unrecognized
shapes, all of which reach only the trailing last-event update. -/
inductive RunEvent where
  | status (step : String) (state : StepState)
  | log (chunk : String)
  | titleGenerated (title : String)
  | done (ok : Bool) (projectId : Option String) (projectIdSnake : Option String)
  | other
deriving DecidableEq, Repr

/-- State of the zustand run store (state/runStore.ts). The step map is a
JS object, modelled as a function from step key to optional status. -/
structure RunStoreState where
  runId : Option String
  running : Bool
  runType : Option RunType
  steps : String → Option StepState
  logs : List Message
  last : Option RunEvent

namespace RunStoreState

/-- `setStep` action: overwrites the named step's status
(`{ ...s.steps, [step]: state }`). -/
def setStep (step : String) (state : StepState) (s : RunStoreState) : RunStoreState :=
  { s with steps := fun k => if k = step then some state else s.steps k }

/-- `appendLog` action: appends a log line with id `logs.length + 1`. -/
def appendLog (line : String) (fromUser : Bool) (s : RunStoreState) : RunStoreState :=
  { s with logs := s.logs ++ [⟨s.logs.length + 1, line, fromUser⟩] }

/-- `reset` action's effect on the run fields: `set(initialRunState)`
(the literal omits `runType`, so the run type survives a reset). -/
def resetFields (s : RunStoreState) : RunStoreState :=
  { s with runId := none, running := false, steps := fun _ => none,
           logs := [], last := none }

end RunStoreState

/-- The normalized authoritative project snapshot
(`NormalizedProject` in services/ProjectLoader.ts). -/
structure NormalizedProject where
  id : String
  title : String
  files : List ProjectFile
  messages : List Message
deriving DecidableEq, Repr

/-- `applyProjectToStore` (state/applyProject.ts): replaces the mirror's
files, selection, title, identifier and messages, then marks it ready. -/
def applyProjectToStore (p : NormalizedProject) (s : ProjectStoreState) : ProjectStoreState :=
  let s1 := ProjectStoreState.setFiles p.files s
  let s2 := ProjectStoreState.setActiveFile ((p.files.head?).map ProjectFile.name) s1
  let s3 := ProjectStoreState.renameProject p.title s2
  let s4 := ProjectStoreState.setId p.id s3
  let s5 := ProjectStoreState.setMessages p.messages s4
  ProjectStoreState.setReady true s5

/-- Combined state of the run store, the project store, the module-level
`doneInflight` single-flight flag, the identifier of an in-flight snapshot
fetch (if any), and two observation logs recording every snapshot fetch
issued and every mirror replacement performed. -/
structure MachineState where
  run : RunStoreState
  store : ProjectStoreState
  doneInflight : Bool
  pendingFetch : Option String
  fetchLog : List String
  replaceLog : List NormalizedProject

/-- Resolution of the project id inside the done handler:
`get().runId ?? e.projectId ?? e.project_id`. -/
def resolveProjectId (m : MachineState) (projectId projectIdSnake : Option String) : Option String :=
  (m.run.runId).orElse (fun _ => projectId.orElse (fun _ => projectIdSnake))

/-- `pushEvent` (state/runStore.ts), including the synchronous prefix of the
asynchronous done handler: on `done` with the guard clear, the handler sets
the guard, marks the `done` step, marks the store ready; on failure it
appends one failure message and clears the guard; on success it marks the
store pending and either fails synchronously (missing project id: caught,
pending and guard cleared) or records the snapshot fetch as in flight.
The fetch completion is a separate transition (`completeFetch`). -/
def pushEvent (e : RunEvent) (m : MachineState) : MachineState :=
  match e with
  | .status step st =>
    let run1 := RunStoreState.setStep step st m.run
    { m with run := { run1 with last := some e } }
  | .log chunk =>
    let run1 := RunStoreState.appendLog chunk false m.run
    { m with run := { run1 with last := some e } }
  | .titleGenerated title =>
    { m with store := ProjectStoreState.renameProject title m.store,
             run := { m.run with last := some e } }
  | .done ok pid pid2 =>
    if m.doneInflight then m
    else
      let m1 := { m with doneInflight := true,
                         run := RunStoreState.setStep "done" StepState.done m.run }
      let m2 := { m1 with store := ProjectStoreState.setReady true m1.store }
      if ok = false then
        { m2 with store := ProjectStoreState.addMessage "Pipeline failed to complete." false m2.store,
                  doneInflight := false }
      else
        let m3 := { m2 with store := ProjectStoreState.setIsPending true m2.store }
        match resolveProjectId m3 pid pid2 with
        | none =>
          let m4 := { m3 with store := ProjectStoreState.setIsPending false m3.store,
                              doneInflight := false }
          { m4 with run := { m4.run with running := false, last := some e } }
        | some projectId =>
          let m4 := { m3 with pendingFetch := some projectId,
                              fetchLog := m3.fetchLog ++ [projectId] }
          { m4 with run := { m4.run with running := false, last := some e } }
  | .other =>
    { m with run := { m.run with last := some e } }

/-- Outcome of the awaited snapshot fetch plus normalization: either the
normalized project, or any thrown error. -/
inductive FetchResult where
  | success (p : NormalizedProject)
  | failure

/-- Completion of the in-flight snapshot fetch: on success the normalized
project is applied to the store and recorded as a mirror replacement; in
both cases the `finally` block clears the pending flag and the
single-flight guard. -/
def completeFetch (r : FetchResult) (m : MachineState) : MachineState :=
  match m.pendingFetch with
  | none => m
  | some _ =>
    let m1 :=
      match r with
      | .success p =>
        { m with store := applyProjectToStore p m.store,
                 replaceLog := m.replaceLog ++ [p] }
      | .failure => m
    { m1 with store := ProjectStoreState.setIsPending false m1.store,
              doneInflight := false, pendingFetch := none }

/-- `useKillRun` (hooks/useKillRun.ts): the remote kill request is issued,
and the run store's `reset` runs in `onSuccess` only; `reset` clears the
module-level guard and restores the initial run fields. -/
def killRun (remoteOk : Bool) (m : MachineState) : MachineState :=
  if remoteOk then
    { m with run := RunStoreState.resetFields m.run, doneInflight := false }
  else m

/-- The named pipeline steps of the run view (`StepKey` in runView.tsx). -/
inductive StepKey where
  | router
  | planner
  | implement
  | test
  | fix
deriving DecidableEq, Repr

/-- The string key a `StepKey` uses in the run store's step map. -/
def StepKey.key : StepKey → String
  | .router => "router"
  | .planner => "planner"
  | .implement => "implement"
  | .test => "test"
  | .fix => "fix"

/-- `ALL_STEPS` in runView.tsx. -/
def ALL_STEPS : List StepKey :=
  [StepKey.router, StepKey.planner, StepKey.implement, StepKey.test, StepKey.fix]

/-- The `stepOrder` memo of `RunView`: four steps (omitting the router) for
a modify run, all five otherwise. -/
def stepOrder (runType : Option RunType) : List StepKey :=
  match runType with
  | some RunType.modify => [StepKey.planner, StepKey.implement, StepKey.test, StepKey.fix]
  | _ => ALL_STEPS

/-- The active-step computation of the `readiness` memo in `RunView`
(runView.tsx): the step at the first index whose state is `running`; if no
such index, the step at the first index whose state is not `done`; if none,
the last entry of the step order. `List.findIdx` returns the length when no
element matches, mirroring the `!== -1` checks on `findIndex`. -/
def runViewActive (steps : String → Option StepState) (order : List StepKey) : Option StepKey :=
  let runningIndex := order.findIdx (fun k => steps k.key == some StepState.running)
  if runningIndex < order.length then order.get? runningIndex
  else
    let firstNotDoneIndex := order.findIdx (fun k => steps k.key != some StepState.done)
    if firstNotDoneIndex < order.length then order.get? firstNotDoneIndex
    else order.get? (order.length - 1)

/-- Modelled from the spec wording of active-step derivation, for
comparison with `runViewActive`: the first step in the order that is
running, else the first step not done, else the last step. -/
def specActiveStep (steps : String → Option StepState) (order : List StepKey) : Option StepKey :=
  match order.find? (fun k => steps k.key == some StepState.running) with
  | some k => some k
  | none =>
    match order.find? (fun k => steps k.key != some StepState.done) with
    | some k => some k
    | none => order.getLast?

/-- Result of one optimistic mutation attempt against the mirror: the store
afterwards, whether a remote request was issued, and whether the operation
was rejected locally before any request. -/
structure AttemptResult where
  store : ProjectStoreState
  networkIssued : Bool
  failedLocally : Bool
deriving DecidableEq, Repr

/-- `handleAddFile` in CodeEditor.tsx (with the prompt answered by
`newName`): rejected locally when a file of that name exists; otherwise the
file is appended and selected optimistically, and on remote failure the
previous collection is restored and the selection falls back to the
captured selection (or the first previous file when the captured selection
was empty or the new name). The fixed initial content is `"// New file"`. -/
def handleAddFile (newName : String) (remoteOk : Bool) (s : ProjectStoreState) : AttemptResult :=
  match s.project with
  | none => ⟨s, false, false⟩
  | some p =>
    if p.files.any (fun f => f.name == newName) then ⟨s, false, true⟩
    else
      let initialContent := "// New file"
      let nextFiles := p.files ++ [⟨newName, initialContent⟩]
      let s1 := ProjectStoreState.setFiles nextFiles s
      let s2 := ProjectStoreState.setActiveFile (some newName) s1
      if remoteOk then ⟨s2, true, false⟩
      else
        let s3 := ProjectStoreState.setFiles p.files s2
        let s4 :=
          match p.activeFile with
          | some a =>
            if a ≠ "" ∧ a ≠ newName then ProjectStoreState.setActiveFile (some a) s3
            else ProjectStoreState.setActiveFile ((p.files.head?).map ProjectFile.name) s3
          | none => ProjectStoreState.setActiveFile ((p.files.head?).map ProjectFile.name) s3
        ⟨s4, true, false⟩

/-- `handleDeleteFile` in CodeEditor.tsx (with the confirm dialog
accepted): the file is removed optimistically, the selection falling back
to the first remaining file when the deleted file was selected; on remote
failure the captured collection and selection are both restored. -/
def handleDeleteFile (name : String) (remoteOk : Bool) (s : ProjectStoreState) : AttemptResult :=
  match s.project with
  | none => ⟨s, false, false⟩
  | some p =>
    let prevFiles := p.files
    let newFiles := prevFiles.filter (fun f => f.name != name)
    let prevActive := p.activeFile
    let s1 := ProjectStoreState.setFiles newFiles s
    let s2 :=
      if p.activeFile = some name then
        ProjectStoreState.setActiveFile ((newFiles.head?).map ProjectFile.name) s1
      else s1
    if remoteOk then ⟨s2, true, false⟩
    else ⟨ProjectStoreState.setActiveFile prevActive (ProjectStoreState.setFiles prevFiles s2),
          true, false⟩

/-- `useRenameFile` (hooks/useRenameFile.ts): `onMutate` throws before the
remote call when no project exists or the destination name already exists;
otherwise it renames the file optimistically and, when the renamed file was
selected, moves the selection to the new name; `onError` restores the
captured collection and selection (the TypeScript `prevActive ?? null` is
the captured `Option` value). -/
def renameFileAttempt (oldName newName : String) (remoteOk : Bool) (s : ProjectStoreState) : AttemptResult :=
  match s.project with
  | none => ⟨s, false, true⟩
  | some p =>
    if p.files.any (fun f => f.name == newName) then ⟨s, false, true⟩
    else
      let nextFiles := p.files.map (fun f =>
        if f.name == oldName then { f with name := newName } else f)
      let s1 := ProjectStoreState.setFiles nextFiles s
      let s2 :=
        if p.activeFile = some oldName then ProjectStoreState.setActiveFile (some newName) s1
        else s1
      if remoteOk then ⟨s2, true, false⟩
      else ⟨ProjectStoreState.setActiveFile p.activeFile (ProjectStoreState.setFiles p.files s2),
            true, false⟩

/-- Case-insensitive ASCII prefix test on character lists, used to embed
the case-insensitive regex matching of `stripTwBuilt`. -/
def startsWithCI : List Char → List Char → Bool
  | [], _ => true
  | _ :: _, [] => false
  | p :: ps, c :: cs => (p.toLower == c.toLower) && startsWithCI ps cs

/-- First case-insensitive occurrence of `pat`: returns the characters
before the match and the characters after it. -/
def breakOnCI (pat : List Char) : List Char → Option (List Char × List Char)
  | [] => if pat.isEmpty then some ([], []) else none
  | c :: cs =>
    if startsWithCI pat (c :: cs) then some ([], (c :: cs).drop pat.length)
    else (breakOnCI pat cs).map (fun pr => (c :: pr.1, pr.2))

/-- Does the list start with `id\s*=\s*["']tw-built["']` (case-insensitive,
either quote on either side)? -/
def idTwBuiltAt (s : List Char) : Bool :=
  match s with
  | c1 :: c2 :: rest =>
    if c1.toLower == 'i' && c2.toLower == 'd' then
      match rest.dropWhile Char.isWhitespace with
      | '=' :: r2 =>
        match r2.dropWhile Char.isWhitespace with
        | q :: r4 =>
          if q == '"' || q == Char.ofNat 39 then
            startsWithCI "tw-built".toList r4 &&
              (match r4.drop 8 with
               | q2 :: _ => q2 == '"' || q2 == Char.ofNat 39
               | [] => false)
          else false
        | [] => false
      | _ => false
    else false
  | _ => false

/-- Scan of an opening-tag body for a word-boundary `id="tw-built"`
attribute; `prev` is the character preceding the scan position, used for
the regex word boundary before `id`. -/
def tagHasTwBuiltId (prev : Option Char) : List Char → Bool
  | [] => false
  | c :: cs =>
    let boundaryOk :=
      match prev with
      | none => true
      | some pch => !(pch.isAlphanum || pch == Char.ofNat 95)
    (boundaryOk && idTwBuiltAt (c :: cs)) || tagHasTwBuiltId (some c) cs

/-- One pass of the `stripTwBuilt` regex replacement: removes the first
`<style ... id="tw-built" ...> ... </style>` span (case-insensitive, lazy
closing match), or returns `none` when no full match exists. -/
def stripTwBuiltList : List Char → Option (List Char)
  | [] => none
  | c :: cs =>
    let keep := fun (_ : Unit) => (stripTwBuiltList cs).map (fun r => c :: r)
    if startsWithCI "<style".toList (c :: cs) then
      let afterOpen := (c :: cs).drop 6
      let tagBody := afterOpen.takeWhile (fun ch => ch != '>')
      let afterTag := afterOpen.drop tagBody.length
      match afterTag with
      | '>' :: rest =>
        if tagHasTwBuiltId ((c :: cs).get? 5) tagBody then
          match breakOnCI "</style>".toList rest with
          | some (_, post) => some post
          | none => keep ()
        else keep ()
      | _ => keep ()
    else keep ()

/-- `stripTwBuilt` (hooks/useDebouncedFileSave.ts): removes the built
tailwind style element from an html string; empty or non-matching input is
returned unchanged. -/
def stripTwBuilt (html : String) : String :=
  if html = "" then html
  else
    match stripTwBuiltList html.toList with
    | some res => String.mk res
    | none => html

/-- The body sent by the save mutation: the latest content, passed through
`stripTwBuilt` when the file name ends in `index.html`. -/
def contentToSave (fileName raw : String) : String :=
  if fileName ≠ "" ∧ fileName.endsWith "index.html" then stripTwBuilt raw else raw

/-- The current remote-confirmed content read off the store when the
rollback snapshot is captured:
`project?.files.find(f => f.name === fileName)?.content ?? ""`. -/
def fileContentOf (s : ProjectStoreState) (fileName : String) : String :=
  match s.project with
  | none => ""
  | some p => (((p.files.find? (fun f => f.name == fileName))).map ProjectFile.content).getD ""

/-- State of the debounced persistence buffer (`useDebouncedFileSave`) for
one fixed `(projectId, fileName)` key, together with the mirror it writes
through. `latest` and `prev` model `latestContentRef` and
`prevContentRef`; `timer` holds the identifier of the pending timer, if
any (restarting the timer cancels the previous identifier for good),
`nextTimerId` supplies fresh identifiers, and `writes` records the body of
every remote write issued. -/
structure DebounceState where
  store : ProjectStoreState
  latest : String
  prev : String
  timer : Option Nat
  nextTimerId : Nat
  writes : List String

/-- The buffer state installed when the `(projectId, fileName)` key
changes: both refs cleared and any pending timer cancelled, without a
flush. -/
def debounceKeyReset (d : DebounceState) : DebounceState :=
  { d with latest := "", prev := "", timer := none }

/-- The `save` callback: a no-op when either key part is empty; otherwise
it captures the rollback snapshot when `prevContentRef` is empty (JS
falsiness of the empty string), records the latest content, applies it to
the mirror optimistically, and restarts the trailing-edge timer. -/
def debounceSave (projectId fileName content : String) (d : DebounceState) : DebounceState :=
  if projectId = "" ∨ fileName = "" then d
  else
    let prev2 := if d.prev = "" then fileContentOf d.store fileName else d.prev
    { d with prev := prev2,
             latest := content,
             store := ProjectStoreState.updateFile fileName content d.store,
             timer := some d.nextTimerId,
             nextTimerId := d.nextTimerId + 1 }

/-- The effects of one run of the save mutation (`mutationFn` with
`onMutate`, `onError`, `onSettled`): the latest content is written
remotely; on failure the rollback snapshot, when non-empty, is reapplied
to the mirror; the pending flag is set and finally cleared; the snapshot
itself is never cleared here. -/
def debounceMutate (fileName : String) (remoteOk : Bool) (d : DebounceState) : DebounceState :=
  let body := contentToSave fileName d.latest
  let d1 := { d with writes := d.writes ++ [body] }
  let s1 := ProjectStoreState.setIsPending true d1.store
  let s2 :=
    if remoteOk then s1
    else if d.prev ≠ "" then ProjectStoreState.updateFile fileName d.prev s1
    else s1
  { d1 with store := ProjectStoreState.setIsPending false s2 }

/-- Expiry of the timer with identifier `id`: it runs the mutation only
when it is still the pending timer (a restarted timer cancelled every
earlier identifier). -/
def debounceTimerFire (fileName : String) (id : Nat) (remoteOk : Bool) (d : DebounceState) : DebounceState :=
  if d.timer = some id then debounceMutate fileName remoteOk { d with timer := none }
  else d

/-- The `flush` callback: a no-op when either key part is empty; otherwise
it cancels the pending timer and runs the mutation immediately. -/
def debounceFlush (projectId fileName : String) (remoteOk : Bool) (d : DebounceState) : DebounceState :=
  if projectId = "" ∨ fileName = "" then d
  else debounceMutate fileName remoteOk { d with timer := none }

/-- A burst of content updates for one key: the `save` callback applied to
each content in order. -/
def debounceBurst (projectId fileName : String) (contents : List String) (d : DebounceState) : DebounceState :=
  contents.foldl (fun acc c => debounceSave projectId fileName c acc) d

/-- Does the store hold a project containing a file of this name? -/
def hasFile (s : ProjectStoreState) (fn : String) : Bool :=
  match s.project with
  | none => false
  | some p => p.files.any (fun f => f.name == fn)

/-- Spec-side characterization for the step map: the state carried by the
last status event of the sequence naming the given key, if any. -/
def lastStatusNaming (k : String) : List (String × StepState) → Option StepState
  | [] => none
  | e :: rest =>
    match lastStatusNaming k rest with
    | some v => some v
    | none => if e.1 == k then some e.2 else none

/-- Spec-side characterization for the persistence buffer: the content of
the last update of a burst (`c` followed by `cs`). -/
def lastContent (c : String) : List String → String
  | [] => c
  | c2 :: cs => lastContent c2 cs

/-- Sample file `a.ts` for concrete scenarios. -/
def exFileA : ProjectFile := ⟨"a.ts", "aaa"⟩

/-- Sample file `b.ts` for concrete scenarios. -/
def exFileB : ProjectFile := ⟨"b.ts", "bbb"⟩

/-- Sample mirror project with files `a.ts`, `b.ts` and selection `a.ts`. -/
def exProject : Project := ⟨"p1", "Demo", [exFileA, exFileB], some "a.ts", [], false⟩

/-- Sample project store holding `exProject`, not yet marked ready. -/
def exStore : ProjectStoreState := ⟨some exProject, false⟩

/-- Sample run store for a tracked generate run `r1`. -/
def exRun : RunStoreState :=
  { runId := some "r1", running := true, runType := some RunType.generate,
    steps := fun _ => none, logs := [], last := none }

/-- Sample combined machine state: run `r1` in flight over `exStore`. -/
def exMachine : MachineState :=
  { run := exRun, store := exStore, doneInflight := false,
    pendingFetch := none, fetchLog := [], replaceLog := [] }

/-- Sample authoritative snapshot used as a fetch result. -/
def exSnapshot : NormalizedProject := ⟨"p2", "Done", [⟨"c.ts", "ccc"⟩], []⟩

/-- Sample idle persistence buffer over `exStore`. -/
def exBuffer : DebounceState := ⟨exStore, "", "", none, 0, []⟩

/-- The selection-validity invariant of the mirror: the active file, when
set, names a file of the collection. -/
def activeFileValid (p : Project) : Bool :=
  match p.activeFile with
  | none => true
  | some a => p.files.any (fun f => f.name == a)

/-! ## Helper lemmas -/

theorem pushEvent_done_of_inflight (m : MachineState) (ok : Bool) (pid pid2 : Option String)
    (h : m.doneInflight = true) :
    pushEvent (RunEvent.done ok pid pid2) m = m := by
  simp [pushEvent, h]

theorem pushEvent_done_true_eq (m : MachineState) (pid pid2 : Option String) (rid : String)
    (h : m.doneInflight = false) (hr : resolveProjectId m pid pid2 = some rid) :
    pushEvent (RunEvent.done true pid pid2) m =
      { run := { m.run with
                   steps := fun k => if k = "done" then some StepState.done else m.run.steps k,
                   running := false,
                   last := some (RunEvent.done true pid pid2) },
        store := ProjectStoreState.setIsPending true (ProjectStoreState.setReady true m.store),
        doneInflight := true,
        pendingFetch := some rid,
        fetchLog := m.fetchLog ++ [rid],
        replaceLog := m.replaceLog } := by
  simp only [resolveProjectId, RunStoreState.setStep] at hr
  simp [pushEvent, h, resolveProjectId, RunStoreState.setStep, hr]

theorem foldl_pushEvent_replicate_done (n : Nat) (ok : Bool) (pid pid2 : Option String)
    (m : MachineState) (h : m.doneInflight = true) :
    (List.replicate n (RunEvent.done ok pid pid2)).foldl (fun acc e => pushEvent e acc) m = m := by
  induction n with
  | zero => rfl
  | succ k ih =>
    rw [List.replicate_succ, List.foldl_cons, pushEvent_done_of_inflight m ok pid pid2 h]
    exact ih

/-! ## C1 -/

/-- C1: duplicate `done{ok:true}` events delivered while the single-flight
guard of the first is still set are ignored: a burst of `n + 1` identical
successful terminal events has exactly the effect of its first event,
records exactly one snapshot fetch, performs no mirror replacement during
the burst, and the single fetch completion performs exactly one mirror
replacement. -/
theorem done_duplicates_single_flight (m : MachineState) (n : Nat)
    (pid pid2 : Option String) (rid : String) (p : NormalizedProject)
    (hInfl : m.doneInflight = false)
    (hRid : resolveProjectId m pid pid2 = some rid) :
    ((List.replicate (n + 1) (RunEvent.done true pid pid2)).foldl
        (fun acc e => pushEvent e acc) m)
      = pushEvent (RunEvent.done true pid pid2) m ∧
    ((List.replicate (n + 1) (RunEvent.done true pid pid2)).foldl
        (fun acc e => pushEvent e acc) m).fetchLog = m.fetchLog ++ [rid] ∧
    ((List.replicate (n + 1) (RunEvent.done true pid pid2)).foldl
        (fun acc e => pushEvent e acc) m).replaceLog = m.replaceLog ∧
    ((List.replicate (n + 1) (RunEvent.done true pid pid2)).foldl
        (fun acc e => pushEvent e acc) m).doneInflight = true ∧
    (completeFetch (FetchResult.success p)
        ((List.replicate (n + 1) (RunEvent.done true pid pid2)).foldl
          (fun acc e => pushEvent e acc) m)).replaceLog = m.replaceLog ++ [p] ∧
    (completeFetch (FetchResult.success p)
        ((List.replicate (n + 1) (RunEvent.done true pid pid2)).foldl
          (fun acc e => pushEvent e acc) m)).fetchLog = m.fetchLog ++ [rid] := by
  have h1 := pushEvent_done_true_eq m pid pid2 rid hInfl hRid
  have hfold :
      ((List.replicate (n + 1) (RunEvent.done true pid pid2)).foldl
        (fun acc e => pushEvent e acc) m)
        = pushEvent (RunEvent.done true pid pid2) m := by
    rw [List.replicate_succ, List.foldl_cons]
    exact foldl_pushEvent_replicate_done n true pid pid2 _ (by rw [h1])
  refine ⟨hfold, ?_, ?_, ?_, ?_, ?_⟩ <;> rw [hfold, h1] <;> simp [completeFetch]

/-- Witness for C1 at a concrete machine: a burst of two successful
terminal events on `exMachine`. -/
theorem done_duplicates_single_flight_witness :
    exMachine.doneInflight = false ∧
    resolveProjectId exMachine none none = some "r1" ∧
    (((List.replicate 2 (RunEvent.done true none none)).foldl
        (fun acc e => pushEvent e acc) exMachine)
      = pushEvent (RunEvent.done true none none) exMachine ∧
    ((List.replicate 2 (RunEvent.done true none none)).foldl
        (fun acc e => pushEvent e acc) exMachine).fetchLog = exMachine.fetchLog ++ ["r1"] ∧
    ((List.replicate 2 (RunEvent.done true none none)).foldl
        (fun acc e => pushEvent e acc) exMachine).replaceLog = exMachine.replaceLog ∧
    ((List.replicate 2 (RunEvent.done true none none)).foldl
        (fun acc e => pushEvent e acc) exMachine).doneInflight = true ∧
    (completeFetch (FetchResult.success exSnapshot)
        ((List.replicate 2 (RunEvent.done true none none)).foldl
          (fun acc e => pushEvent e acc) exMachine)).replaceLog
      = exMachine.replaceLog ++ [exSnapshot] ∧
    (completeFetch (FetchResult.success exSnapshot)
        ((List.replicate 2 (RunEvent.done true none none)).foldl
          (fun acc e => pushEvent e acc) exMachine)).fetchLog
      = exMachine.fetchLog ++ ["r1"]) :=
  ⟨rfl, rfl, done_duplicates_single_flight exMachine 1 none none "r1" exSnapshot rfl rfl⟩

/-! ## C2 -/

/-- C2: processing any finite sequence of status events leaves each step
key at the state of the last event of the sequence naming it, and keys
never named keep their prior value (no ordering or timestamp check). -/
theorem status_last_write_wins (m : MachineState) (evs : List (String × StepState)) (k : String) :
    ((evs.map (fun e => RunEvent.status e.1 e.2)).foldl
        (fun acc e => pushEvent e acc) m).run.steps k
      = match lastStatusNaming k evs with
        | some v => some v
        | none => m.run.steps k := by
  induction evs generalizing m with
  | nil => rfl
  | cons e rest ih =>
    rw [List.map_cons, List.foldl_cons, ih]
    cases hrest : lastStatusNaming k rest with
    | some v => simp [lastStatusNaming, hrest]
    | none =>
      simp only [lastStatusNaming, hrest, pushEvent, RunStoreState.setStep]
      by_cases hk : k = e.1
      · simp [hk]
      · have hk2 : ¬ e.1 = k := fun h => hk h.symm
        simp [hk, hk2]

/-! ## C3 -/

theorem findIdx_get?_branch {α : Type} (p : α → Bool) (l : List α) (d : Option α) :
    (if l.findIdx p < l.length then l.get? (l.findIdx p) else d)
      = match l.find? p with | some a => some a | none => d := by
  induction l generalizing d with
  | nil => simp [List.findIdx]
  | cons a l ih =>
    cases hpa : p a with
    | true => simp [List.findIdx_cons, hpa, List.find?_cons]
    | false =>
      simp only [List.findIdx_cons, hpa, cond_false, List.find?_cons, List.length_cons,
        Nat.add_lt_add_iff_right, List.get?_eq_getElem?, List.getElem?_cons_succ]
      rw [← List.get?_eq_getElem?]
      exact ih d

theorem getLast?_mem_of_eq_some {α : Type} {l : List α} {a : α}
    (h : l.getLast? = some a) : a ∈ l := by
  rw [List.getLast?_eq_getElem?] at h
  obtain ⟨hn, rfl⟩ := List.getElem?_eq_some.mp h
  exact List.getElem_mem hn

theorem runViewActive_eq_spec (steps : String → Option StepState) (order : List StepKey) :
    runViewActive steps order = specActiveStep steps order := by
  unfold runViewActive specActiveStep
  rw [findIdx_get?_branch, findIdx_get?_branch, List.get?_eq_getElem?,
    ← List.getLast?_eq_getElem?]
  cases List.find? (fun k => steps k.key == some StepState.running) order with
  | some k => rfl
  | none =>
    cases List.find? (fun k => steps k.key != some StepState.done) order with
    | some k => rfl
    | none => rfl

theorem stepOrder_ne_nil (rt : Option RunType) : stepOrder rt ≠ [] := by
  cases rt with
  | none => simp [stepOrder, ALL_STEPS]
  | some t => cases t <;> simp [stepOrder, ALL_STEPS]

/-- C3: active-step derivation over the fixed step order (five steps for a
generate run, four for a modify run) agrees with the specified rule — the
first running step, else the first step not done, else the last step — it
returns exactly one step of the order, and that step is running whenever
any step of the order is running. -/
theorem active_step_derivation (rt : Option RunType) (steps : String → Option StepState) :
    runViewActive steps (stepOrder rt) = specActiveStep steps (stepOrder rt) ∧
    (∃ a, runViewActive steps (stepOrder rt) = some a ∧ a ∈ stepOrder rt) ∧
    (∀ a, runViewActive steps (stepOrder rt) = some a →
      (∃ k ∈ stepOrder rt, steps k.key = some StepState.running) →
      steps a.key = some StepState.running) := by
  have heq := runViewActive_eq_spec steps (stepOrder rt)
  refine ⟨heq, ?_, ?_⟩
  · rw [heq]
    unfold specActiveStep
    cases h1 : (stepOrder rt).find? (fun k => steps k.key == some StepState.running) with
    | some k => exact ⟨k, rfl, List.mem_of_find?_eq_some h1⟩
    | none =>
      cases h2 : (stepOrder rt).find? (fun k => steps k.key != some StepState.done) with
      | some k => exact ⟨k, rfl, List.mem_of_find?_eq_some h2⟩
      | none =>
        have hs : ((stepOrder rt).getLast?).isSome := by
          rw [List.getLast?_isSome]
          exact stepOrder_ne_nil rt
        obtain ⟨a, ha⟩ := Option.isSome_iff_exists.mp hs
        exact ⟨a, ha, getLast?_mem_of_eq_some ha⟩
  · intro a hact hrun
    rw [heq] at hact
    unfold specActiveStep at hact
    cases h1 : (stepOrder rt).find? (fun k => steps k.key == some StepState.running) with
    | some k =>
      rw [h1] at hact
      have hp := List.find?_some h1
      cases hact
      simpa [beq_iff_eq] using hp
    | none =>
      obtain ⟨k, hk, hkr⟩ := hrun
      have := List.find?_eq_none.mp h1 k hk
      simp [hkr] at this

/-- Witness for C3: the generate order with `implement` done and `test`
queued derives `test` as the active step; with `planner` running, the
active step is running. -/
theorem active_step_derivation_witness :
    (runViewActive
        (fun k => if k = "planner" then some StepState.running else none)
        (stepOrder (some RunType.generate)) = some StepKey.planner) ∧
    ((fun k => if k = "planner" then some StepState.running else none)
        StepKey.planner.key = some StepState.running) := by
  have h := active_step_derivation (some RunType.generate)
    (fun k => if k = "planner" then some StepState.running else none)
  have hact : runViewActive
      (fun k => if k = "planner" then some StepState.running else none)
      (stepOrder (some RunType.generate)) = some StepKey.planner := by decide
  exact ⟨hact, h.2.2 StepKey.planner hact ⟨StepKey.planner, by decide, by decide⟩⟩

/-! ## C4 -/

/-- C4 counterexample: the claim that a failed snapshot fetch leaves no
field of the mirror changed is false — on `exMachine`, whose mirror is not
yet marked ready, handling `done{ok:true}` followed by a failing fetch
leaves the mirror's ready flag set to `true`. -/
theorem done_fetch_failure_changes_ready :
    exMachine.store.ready = false ∧
    (completeFetch FetchResult.failure
        (pushEvent (RunEvent.done true none none) exMachine)).store.ready = true := by
  exact ⟨rfl, rfl⟩

/-- C4 (amended): when the snapshot fetch of a `done{ok:true}` handling
fails, the failure is caught, the single-flight guard is cleared and no
retry or replacement happens; the mirror's files, title, identifier,
messages and selection keep their pre-terminal values — but the terminal
handling has already set the mirror's ready flag and, on completion,
cleared its pending flag. -/
theorem done_fetch_failure_preserves_mirror (m : MachineState)
    (pid pid2 : Option String) (rid : String)
    (hInfl : m.doneInflight = false)
    (hRid : resolveProjectId m pid pid2 = some rid) :
    (completeFetch FetchResult.failure
        (pushEvent (RunEvent.done true pid pid2) m)).store.project.map Project.files
      = m.store.project.map Project.files ∧
    (completeFetch FetchResult.failure
        (pushEvent (RunEvent.done true pid pid2) m)).store.project.map Project.title
      = m.store.project.map Project.title ∧
    (completeFetch FetchResult.failure
        (pushEvent (RunEvent.done true pid pid2) m)).store.project.map Project.id
      = m.store.project.map Project.id ∧
    (completeFetch FetchResult.failure
        (pushEvent (RunEvent.done true pid pid2) m)).store.project.map Project.messages
      = m.store.project.map Project.messages ∧
    (completeFetch FetchResult.failure
        (pushEvent (RunEvent.done true pid pid2) m)).store.project.map Project.activeFile
      = m.store.project.map Project.activeFile ∧
    (completeFetch FetchResult.failure
        (pushEvent (RunEvent.done true pid pid2) m)).store.project.map Project.isPending
      = m.store.project.map (fun _ => false) ∧
    (completeFetch FetchResult.failure
        (pushEvent (RunEvent.done true pid pid2) m)).store.ready = true ∧
    (completeFetch FetchResult.failure
        (pushEvent (RunEvent.done true pid pid2) m)).doneInflight = false ∧
    (completeFetch FetchResult.failure
        (pushEvent (RunEvent.done true pid pid2) m)).pendingFetch = none ∧
    (completeFetch FetchResult.failure
        (pushEvent (RunEvent.done true pid pid2) m)).replaceLog = m.replaceLog ∧
    (completeFetch FetchResult.failure
        (pushEvent (RunEvent.done true pid pid2) m)).fetchLog = m.fetchLog ++ [rid] := by
  rw [pushEvent_done_true_eq m pid pid2 rid hInfl hRid]
  cases hp : m.store.project with
  | none =>
    simp [completeFetch, ProjectStoreState.setIsPending, ProjectStoreState.setReady, hp]
  | some p =>
    simp [completeFetch, ProjectStoreState.setIsPending, ProjectStoreState.setReady, hp]

/-- Witness for C4 at the concrete machine `exMachine`. -/
theorem done_fetch_failure_preserves_mirror_witness :
    exMachine.doneInflight = false ∧
    resolveProjectId exMachine none none = some "r1" ∧
    ((completeFetch FetchResult.failure
        (pushEvent (RunEvent.done true none none) exMachine)).store.project.map Project.files
      = exMachine.store.project.map Project.files ∧
    (completeFetch FetchResult.failure
        (pushEvent (RunEvent.done true none none) exMachine)).store.project.map Project.title
      = exMachine.store.project.map Project.title ∧
    (completeFetch FetchResult.failure
        (pushEvent (RunEvent.done true none none) exMachine)).store.project.map Project.id
      = exMachine.store.project.map Project.id ∧
    (completeFetch FetchResult.failure
        (pushEvent (RunEvent.done true none none) exMachine)).store.project.map Project.messages
      = exMachine.store.project.map Project.messages ∧
    (completeFetch FetchResult.failure
        (pushEvent (RunEvent.done true none none) exMachine)).store.project.map Project.activeFile
      = exMachine.store.project.map Project.activeFile ∧
    (completeFetch FetchResult.failure
        (pushEvent (RunEvent.done true none none) exMachine)).store.project.map Project.isPending
      = exMachine.store.project.map (fun _ => false) ∧
    (completeFetch FetchResult.failure
        (pushEvent (RunEvent.done true none none) exMachine)).store.ready = true ∧
    (completeFetch FetchResult.failure
        (pushEvent (RunEvent.done true none none) exMachine)).doneInflight = false ∧
    (completeFetch FetchResult.failure
        (pushEvent (RunEvent.done true none none) exMachine)).pendingFetch = none ∧
    (completeFetch FetchResult.failure
        (pushEvent (RunEvent.done true none none) exMachine)).replaceLog = exMachine.replaceLog ∧
    (completeFetch FetchResult.failure
        (pushEvent (RunEvent.done true none none) exMachine)).fetchLog
      = exMachine.fetchLog ++ ["r1"]) :=
  ⟨rfl, rfl, done_fetch_failure_preserves_mirror exMachine none none "r1" rfl rfl⟩

/-! ## C5 -/

/-- C5: a `done{ok:false}` event that passes the single-flight guard
issues no snapshot fetch, appends exactly one failure log entry to the
mirror's messages, and clears the guard. -/
theorem done_failure_no_fetch (m : MachineState) (p : Project)
    (pid pid2 : Option String)
    (hInfl : m.doneInflight = false) (hp : m.store.project = some p) :
    (pushEvent (RunEvent.done false pid pid2) m).fetchLog = m.fetchLog ∧
    (pushEvent (RunEvent.done false pid pid2) m).pendingFetch = m.pendingFetch ∧
    (pushEvent (RunEvent.done false pid pid2) m).replaceLog = m.replaceLog ∧
    (pushEvent (RunEvent.done false pid pid2) m).doneInflight = false ∧
    (pushEvent (RunEvent.done false pid pid2) m).store.project.map Project.messages
      = some (p.messages ++
          [⟨((p.messages.getLast?).map Message.id).getD 0 + 1,
            "Pipeline failed to complete.", false⟩]) := by
  simp [pushEvent, hInfl, ProjectStoreState.addMessage, ProjectStoreState.setReady, hp]

/-- Witness for C5 at the concrete machine `exMachine`. -/
theorem done_failure_no_fetch_witness :
    exMachine.doneInflight = false ∧
    exMachine.store.project = some exProject ∧
    ((pushEvent (RunEvent.done false none none) exMachine).fetchLog = exMachine.fetchLog ∧
    (pushEvent (RunEvent.done false none none) exMachine).pendingFetch = exMachine.pendingFetch ∧
    (pushEvent (RunEvent.done false none none) exMachine).replaceLog = exMachine.replaceLog ∧
    (pushEvent (RunEvent.done false none none) exMachine).doneInflight = false ∧
    (pushEvent (RunEvent.done false none none) exMachine).store.project.map Project.messages
      = some (exProject.messages ++
          [⟨((exProject.messages.getLast?).map Message.id).getD 0 + 1,
            "Pipeline failed to complete.", false⟩])) :=
  ⟨rfl, rfl, done_failure_no_fetch exMachine exProject none none rfl rfl⟩

/-! ## C6 -/

theorem any_name_map_update (l : List ProjectFile) (fn c : String) :
    ((l.map (fun f => if f.name == fn then { f with content := c } else f)).any
        (fun f => f.name == fn))
      = l.any (fun f => f.name == fn) := by
  induction l with
  | nil => rfl
  | cons f fs ih =>
    simp only [List.map_cons, List.any_cons]
    cases hb : (f.name == fn) with
    | true =>
      rw [if_pos rfl]
      have hb2 : (({ name := f.name, content := c } : ProjectFile).name == fn) = true := hb
      rw [hb2]
      simp
    | false =>
      rw [if_neg (by decide : ¬ (false = true)), hb, ih]

theorem find?_name_map_update (l : List ProjectFile) (fn c : String)
    (h : l.any (fun f => f.name == fn) = true) :
    ((l.map (fun f => if f.name == fn then { f with content := c } else f)).find?
        (fun f => f.name == fn)).map ProjectFile.content = some c := by
  induction l with
  | nil => simp at h
  | cons f fs ih =>
    simp only [List.map_cons, List.find?_cons]
    cases hb : (f.name == fn) with
    | true =>
      rw [if_pos rfl]
      have hb2 : (({ name := f.name, content := c } : ProjectFile).name == fn) = true := hb
      rw [hb2]
      rfl
    | false =>
      have h2 : fs.any (fun f => f.name == fn) = true := by simpa [hb] using h
      rw [if_neg (by decide : ¬ (false = true)), hb]
      exact ih h2

theorem hasFile_updateFile (s : ProjectStoreState) (fn c : String) :
    hasFile (ProjectStoreState.updateFile fn c s) fn = hasFile s fn := by
  cases hp : s.project with
  | none => simp [hasFile, ProjectStoreState.updateFile, hp]
  | some p =>
    simp only [hasFile, ProjectStoreState.updateFile, hp]
    exact any_name_map_update p.files fn c

theorem hasFile_setIsPending (b : Bool) (s : ProjectStoreState) (fn : String) :
    hasFile (ProjectStoreState.setIsPending b s) fn = hasFile s fn := by
  cases hp : s.project <;> simp [hasFile, ProjectStoreState.setIsPending, hp]

theorem fileContentOf_setIsPending (b : Bool) (s : ProjectStoreState) (fn : String) :
    fileContentOf (ProjectStoreState.setIsPending b s) fn = fileContentOf s fn := by
  cases hp : s.project <;> simp [fileContentOf, ProjectStoreState.setIsPending, hp]

theorem fileContentOf_updateFile (s : ProjectStoreState) (fn c : String)
    (h : hasFile s fn = true) :
    fileContentOf (ProjectStoreState.updateFile fn c s) fn = c := by
  cases hp : s.project with
  | none => simp [hasFile, hp] at h
  | some p =>
    simp only [hasFile, hp] at h
    simp only [fileContentOf, ProjectStoreState.updateFile, hp]
    rw [find?_name_map_update p.files fn c h]
    rfl

theorem hasFile_of_fileContentOf_ne (s : ProjectStoreState) (fn : String)
    (h : fileContentOf s fn ≠ "") : hasFile s fn = true := by
  cases hp : s.project with
  | none => simp [fileContentOf, hp] at h
  | some p =>
    simp only [fileContentOf, hp] at h
    simp only [hasFile, hp]
    cases hf : p.files.find? (fun f => f.name == fn) with
    | none => simp [hf] at h
    | some f =>
      rw [List.any_eq_true]
      refine ⟨f, List.mem_of_find?_eq_some hf, ?_⟩
      have hpred := List.find?_some (p := fun g : ProjectFile => g.name == fn) hf
      exact hpred

theorem debounceSave_of_prev_ne (pid fn c : String) (d : DebounceState)
    (hpid : pid ≠ "") (hfn : fn ≠ "") (hprev : d.prev ≠ "") :
    debounceSave pid fn c d =
      { d with latest := c,
               store := ProjectStoreState.updateFile fn c d.store,
               timer := some d.nextTimerId,
               nextTimerId := d.nextTimerId + 1 } := by
  simp [debounceSave, hpid, hfn, hprev]

theorem debounceBurst_props (pid fn : String) (hpid : pid ≠ "") (hfn : fn ≠ "")
    (cs : List String) :
    ∀ (c : String) (d : DebounceState), d.prev ≠ "" → hasFile d.store fn = true →
      (debounceBurst pid fn (c :: cs) d).writes = d.writes ∧
      (debounceBurst pid fn (c :: cs) d).prev = d.prev ∧
      (debounceBurst pid fn (c :: cs) d).latest = lastContent c cs ∧
      (debounceBurst pid fn (c :: cs) d).timer = some (d.nextTimerId + cs.length) ∧
      (debounceBurst pid fn (c :: cs) d).nextTimerId = d.nextTimerId + cs.length + 1 ∧
      fileContentOf (debounceBurst pid fn (c :: cs) d).store fn = lastContent c cs ∧
      hasFile (debounceBurst pid fn (c :: cs) d).store fn = true := by
  induction cs with
  | nil =>
    intro c d hprev hhas
    have hstep : debounceBurst pid fn [c] d = debounceSave pid fn c d := rfl
    rw [hstep, debounceSave_of_prev_ne pid fn c d hpid hfn hprev]
    refine ⟨rfl, rfl, rfl, rfl, rfl, ?_, ?_⟩
    · exact fileContentOf_updateFile d.store fn c hhas
    · rw [hasFile_updateFile]
      exact hhas
  | cons c2 cs ih =>
    intro c d hprev hhas
    have hstep : debounceBurst pid fn (c :: c2 :: cs) d
        = debounceBurst pid fn (c2 :: cs) (debounceSave pid fn c d) := rfl
    have hd1 := debounceSave_of_prev_ne pid fn c d hpid hfn hprev
    have hprev1 : (debounceSave pid fn c d).prev ≠ "" := by rw [hd1]; exact hprev
    have hhas1 : hasFile (debounceSave pid fn c d).store fn = true := by
      rw [hd1]
      show hasFile (ProjectStoreState.updateFile fn c d.store) fn = true
      rw [hasFile_updateFile]
      exact hhas
    obtain ⟨h1, h2, h3, h4, h5, h6, h7⟩ := ih c2 (debounceSave pid fn c d) hprev1 hhas1
    rw [hstep]
    refine ⟨by rw [h1, hd1], by rw [h2, hd1], h3, ?_, ?_, h6, h7⟩
    · rw [h4, hd1]
      show some (d.nextTimerId + 1 + cs.length) = some (d.nextTimerId + (cs.length + 1))
      congr 1
      omega
    · rw [h5, hd1]
      show d.nextTimerId + 1 + cs.length + 1 = d.nextTimerId + (cs.length + 1) + 1
      omega


theorem debounceTimerFire_props (fn : String) (T : Nat) (B : DebounceState)
    (hT : B.timer = some T) (hct : contentToSave fn B.latest = B.latest) :
    (∀ i ok, i ≠ T → debounceTimerFire fn i ok B = B) ∧
    (∀ ok, (debounceTimerFire fn T ok B).writes = B.writes ++ [B.latest]) ∧
    (∀ ok, (debounceTimerFire fn T ok B).prev = B.prev) ∧
    fileContentOf (debounceTimerFire fn T true B).store fn = fileContentOf B.store fn ∧
    (B.prev ≠ "" → hasFile B.store fn = true →
      fileContentOf (debounceTimerFire fn T false B).store fn = B.prev) := by
  have hhit : ∀ ok, debounceTimerFire fn T ok B
      = debounceMutate fn ok { B with timer := none } := by
    intro ok
    simp [debounceTimerFire, hT]
  refine ⟨?_, ?_, ?_, ?_, ?_⟩
  · intro i ok hi
    simp only [debounceTimerFire, hT]
    rw [if_neg (fun h => hi (Option.some.inj h).symm)]
  · intro ok
    rw [hhit ok]
    simp [debounceMutate, hct]
  · intro ok
    rw [hhit ok]
    simp [debounceMutate]
  · rw [hhit true]
    simp [debounceMutate, fileContentOf_setIsPending]
  · intro hprev hhas
    rw [hhit false]
    simp [debounceMutate, fileContentOf_setIsPending, hprev]
    rw [fileContentOf_updateFile]
    rw [hasFile_setIsPending]
    exact hhas

theorem debounce_burst_props_from_idle (pid fn c : String) (cs : List String)
    (d : DebounceState)
    (hpid : pid ≠ "") (hfn : fn ≠ "") (hprev : d.prev = "")
    (hc0 : fileContentOf d.store fn ≠ "") :
    (debounceBurst pid fn (c :: cs) d).writes = d.writes ∧
    (debounceBurst pid fn (c :: cs) d).prev = fileContentOf d.store fn ∧
    (debounceBurst pid fn (c :: cs) d).latest = lastContent c cs ∧
    (debounceBurst pid fn (c :: cs) d).timer = some (d.nextTimerId + cs.length) ∧
    fileContentOf (debounceBurst pid fn (c :: cs) d).store fn = lastContent c cs ∧
    hasFile (debounceBurst pid fn (c :: cs) d).store fn = true := by
  have hhas : hasFile d.store fn = true := hasFile_of_fileContentOf_ne d.store fn hc0
  have hd1 : debounceSave pid fn c d =
      { d with prev := fileContentOf d.store fn, latest := c,
               store := ProjectStoreState.updateFile fn c d.store,
               timer := some d.nextTimerId,
               nextTimerId := d.nextTimerId + 1 } := by
    simp [debounceSave, hpid, hfn, hprev]
  cases cs with
  | nil =>
    have hstep : debounceBurst pid fn [c] d = debounceSave pid fn c d := rfl
    rw [hstep, hd1]
    refine ⟨rfl, rfl, rfl, rfl, ?_, ?_⟩
    · exact fileContentOf_updateFile d.store fn c hhas
    · rw [hasFile_updateFile]
      exact hhas
  | cons c2 cs2 =>
    have hstep : debounceBurst pid fn (c :: c2 :: cs2) d
        = debounceBurst pid fn (c2 :: cs2) (debounceSave pid fn c d) := rfl
    have hprev1 : (debounceSave pid fn c d).prev ≠ "" := by rw [hd1]; exact hc0
    have hhas1 : hasFile (debounceSave pid fn c d).store fn = true := by
      rw [hd1]
      show hasFile (ProjectStoreState.updateFile fn c d.store) fn = true
      rw [hasFile_updateFile]
      exact hhas
    obtain ⟨h1, h2, h3, h4, h5, h6, h7⟩ :=
      debounceBurst_props pid fn hpid hfn cs2 c2 (debounceSave pid fn c d) hprev1 hhas1
    rw [hstep]
    refine ⟨by rw [h1, hd1], by rw [h2, hd1], h3, ?_, h6, h7⟩
    rw [h4, hd1]
    show some (d.nextTimerId + 1 + cs2.length) = some (d.nextTimerId + (cs2.length + 1))
    congr 1
    omega

/-- C6 counterexample: the claim that a successful write clears the
rollback snapshot (returning the buffer to idle) is false — after one
update `"y"` on the idle buffer over `exStore` and a successful flush of
the timer, exactly one write `"y"` was issued, yet the rollback snapshot
still holds the captured content `"aaa"` instead of being cleared. -/
theorem debounce_success_snapshot_not_cleared :
    (debounceTimerFire "a.ts" 0 true (debounceSave "p1" "a.ts" "y" exBuffer)).writes = ["y"] ∧
    (debounceTimerFire "a.ts" 0 true (debounceSave "p1" "a.ts" "y" exBuffer)).prev = "aaa" ∧
    ¬ (debounceTimerFire "a.ts" 0 true (debounceSave "p1" "a.ts" "y" exBuffer)).prev = "" := by
  refine ⟨rfl, rfl, by decide⟩

/-- C6 (amended): for a burst of `N ≥ 1` content updates to the buffer for
one (project, file) key from the idle state, when the file's pre-burst
content is non-empty and the name is not an `index.html` file, no write
happens during the burst, exactly one timer is pending and stale timers
never fire; firing the pending timer issues exactly one remote write
carrying the last update's content; on failure the mirror's file content
is restored to the snapshot captured before the first update; on success
the rollback snapshot is NOT cleared — it retains the captured content
until the key changes, so the buffer does not return to idle. -/
theorem debounce_burst_single_write (pid fn c : String) (cs : List String)
    (d : DebounceState)
    (hpid : pid ≠ "") (hfn : fn ≠ "")
    (hidx : fn.endsWith "index.html" = false)
    (hprev : d.prev = "") (hc0 : fileContentOf d.store fn ≠ "") :
    (debounceBurst pid fn (c :: cs) d).writes = d.writes ∧
    (debounceBurst pid fn (c :: cs) d).prev = fileContentOf d.store fn ∧
    (debounceBurst pid fn (c :: cs) d).timer = some (d.nextTimerId + cs.length) ∧
    (∀ i ok, i ≠ d.nextTimerId + cs.length →
      debounceTimerFire fn i ok (debounceBurst pid fn (c :: cs) d)
        = debounceBurst pid fn (c :: cs) d) ∧
    (∀ ok, (debounceTimerFire fn (d.nextTimerId + cs.length) ok
        (debounceBurst pid fn (c :: cs) d)).writes
      = d.writes ++ [lastContent c cs]) ∧
    (debounceTimerFire fn (d.nextTimerId + cs.length) true
        (debounceBurst pid fn (c :: cs) d)).prev = fileContentOf d.store fn ∧
    fileContentOf (debounceTimerFire fn (d.nextTimerId + cs.length) true
        (debounceBurst pid fn (c :: cs) d)).store fn = lastContent c cs ∧
    fileContentOf (debounceTimerFire fn (d.nextTimerId + cs.length) false
        (debounceBurst pid fn (c :: cs) d)).store fn = fileContentOf d.store fn := by
  obtain ⟨hw, hp2, hl, ht, hcont, hhasB⟩ :=
    debounce_burst_props_from_idle pid fn c cs d hpid hfn hprev hc0
  have hct : contentToSave fn (debounceBurst pid fn (c :: cs) d).latest
      = (debounceBurst pid fn (c :: cs) d).latest := by
    simp [contentToSave, hidx]
  obtain ⟨hstale, hwrites, hprevs, hsucc, hfail⟩ :=
    debounceTimerFire_props fn (d.nextTimerId + cs.length)
      (debounceBurst pid fn (c :: cs) d) ht hct
  refine ⟨hw, hp2, ht, hstale, ?_, ?_, ?_, ?_⟩
  · intro ok
    rw [hwrites ok, hw, hl]
  · rw [hprevs true, hp2]
  · rw [hsucc, hcont]
  · rw [hfail (by rw [hp2]; exact hc0) hhasB, hp2]

/-- Witness for C6 at the idle buffer `exBuffer` with the two-update burst
`["x1", "x2"]` on file `a.ts` (pre-burst content `"aaa"`). -/
theorem debounce_burst_single_write_witness :
    ("p1" : String) ≠ "" ∧ ("a.ts" : String) ≠ "" ∧
    ("a.ts".endsWith "index.html") = false ∧
    exBuffer.prev = "" ∧ fileContentOf exBuffer.store "a.ts" ≠ "" ∧
    ((debounceBurst "p1" "a.ts" ["x1", "x2"] exBuffer).writes = [] ∧
     (debounceBurst "p1" "a.ts" ["x1", "x2"] exBuffer).prev = "aaa" ∧
     (debounceBurst "p1" "a.ts" ["x1", "x2"] exBuffer).timer = some 1 ∧
     (∀ ok, (debounceTimerFire "a.ts" 1 ok
         (debounceBurst "p1" "a.ts" ["x1", "x2"] exBuffer)).writes = ["x2"]) ∧
     (debounceTimerFire "a.ts" 1 true
         (debounceBurst "p1" "a.ts" ["x1", "x2"] exBuffer)).prev = "aaa" ∧
     fileContentOf (debounceTimerFire "a.ts" 1 true
         (debounceBurst "p1" "a.ts" ["x1", "x2"] exBuffer)).store "a.ts" = "x2" ∧
     fileContentOf (debounceTimerFire "a.ts" 1 false
         (debounceBurst "p1" "a.ts" ["x1", "x2"] exBuffer)).store "a.ts" = "aaa") := by
  refine ⟨by decide, by decide, by decide, rfl, by decide, ?_⟩
  obtain ⟨h1, h2, h3, h4, h5, h6, h7, h8⟩ :=
    debounce_burst_single_write "p1" "a.ts" "x1" ["x2"] exBuffer
      (by decide) (by decide) (by decide) rfl (by decide)
  exact ⟨h1, h2, h3, fun ok => h5 ok, h6, h7, h8⟩

/-! ## C7 -/

/-- C7: on the mirror with files `a.ts`, `b.ts` and active `a.ts`, an
optimistic delete of `a.ts` makes `b.ts` active; when the remote delete
fails, the collection reverts to both files and the selection reverts to
`a.ts` — collection and selection are restored together. -/
theorem delete_rollback_scenario :
    (handleDeleteFile "a.ts" true exStore).store.project.map Project.files
      = some [exFileB] ∧
    (handleDeleteFile "a.ts" true exStore).store.project.map Project.activeFile
      = some (some "b.ts") ∧
    (handleDeleteFile "a.ts" false exStore).store.project.map Project.files
      = some [exFileA, exFileB] ∧
    (handleDeleteFile "a.ts" false exStore).store.project.map Project.activeFile
      = some (some "a.ts") := by
  refine ⟨rfl, rfl, rfl, rfl⟩

/-! ## C8 -/

/-- C8: adding a file whose name exists, and renaming to a destination
that exists, both fail before any network request with the mirror left
untouched; a rename of the selected file that passes the precondition
moves the selection to the new name. -/
theorem add_rename_preconditions (s : ProjectStoreState) (p : Project)
    (hp : s.project = some p) :
    (∀ n ok, p.files.any (fun f => f.name == n) = true →
      handleAddFile n ok s = ⟨s, false, true⟩) ∧
    (∀ o n ok, p.files.any (fun f => f.name == n) = true →
      renameFileAttempt o n ok s = ⟨s, false, true⟩) ∧
    (∀ o n, p.files.any (fun f => f.name == n) = false → p.activeFile = some o →
      (renameFileAttempt o n true s).store.project.map Project.activeFile
        = some (some n)) := by
  refine ⟨?_, ?_, ?_⟩
  · intro n ok hn
    simp [handleAddFile, hp, hn]
  · intro o n ok hn
    simp [renameFileAttempt, hp, hn]
  · intro o n hn ha
    simp [renameFileAttempt, hp, hn, ha, ProjectStoreState.setFiles,
      ProjectStoreState.setActiveFile]

/-- Witness for C8 on `exStore`: adding `a.ts` and renaming to `b.ts` are
rejected locally; renaming the selected `a.ts` to `c.ts` moves the
selection. -/
theorem add_rename_preconditions_witness :
    exStore.project = some exProject ∧
    (handleAddFile "a.ts" true exStore = ⟨exStore, false, true⟩ ∧
     renameFileAttempt "a.ts" "b.ts" true exStore = ⟨exStore, false, true⟩ ∧
     (renameFileAttempt "a.ts" "c.ts" true exStore).store.project.map Project.activeFile
       = some (some "c.ts")) := by
  obtain ⟨h1, h2, h3⟩ := add_rename_preconditions exStore exProject rfl
  exact ⟨rfl, h1 "a.ts" true (by decide), h2 "a.ts" "b.ts" true (by decide),
    h3 "a.ts" "c.ts" (by decide) rfl⟩

/-! ## C9 -/

/-- C9 counterexample: the claim that a cancel-run request unconditionally
resets local run state regardless of the remote outcome is false — when
the remote kill call fails on `exMachine`, the machine is left unchanged
and the run is still marked running. -/
theorem kill_run_failure_no_reset :
    killRun false exMachine = exMachine ∧ exMachine.run.running = true :=
  ⟨rfl, rfl⟩

/-- C9 (amended): the remote kill call is fire-and-forget, and local run
state is reset only when the remote call succeeds (run id, running flag,
step map, logs, last event and the single-flight guard cleared, the run
type and the mirror untouched); when the remote call fails, local state is
left entirely unchanged. -/
theorem kill_run_reset_only_on_success (m : MachineState) :
    (killRun true m).run.runId = none ∧
    (killRun true m).run.running = false ∧
    (∀ k, (killRun true m).run.steps k = none) ∧
    (killRun true m).run.logs = [] ∧
    (killRun true m).run.last = none ∧
    (killRun true m).run.runType = m.run.runType ∧
    (killRun true m).doneInflight = false ∧
    (killRun true m).store = m.store ∧
    killRun false m = m := by
  exact ⟨rfl, rfl, fun k => rfl, rfl, rfl, rfl, rfl, rfl, rfl⟩

/-! ## C10 -/

theorem activeFileValid_mk_head (p : Project) (files : List ProjectFile) :
    activeFileValid { p with files := files, activeFile := (files.head?).map ProjectFile.name } = true := by
  cases files with
  | nil => rfl
  | cons f fs => simp [activeFileValid]

/-- C10: after `setFiles` the selection always refers to a file of the new
collection or is `none` (previous selection kept when it survives, else
first file, else `none`); after `deleteFile` on a project whose selection
was valid, the selection stays valid (kept unless the deleted file was
selected, in which case it falls back to the first remaining file or
`none`). -/
theorem selection_validity_invariant (s : ProjectStoreState) (p : Project)
    (hp : s.project = some p) :
    (∀ files, ∃ q, (ProjectStoreState.setFiles files s).project = some q ∧
      activeFileValid q = true ∧
      (∀ a, p.activeFile = some a → files.any (fun f => f.name == a) = true →
        q.activeFile = some a) ∧
      ((match p.activeFile with
        | some a => files.any (fun f => f.name == a) = false
        | none => True) →
        q.activeFile = (files.head?).map ProjectFile.name)) ∧
    (∀ n, activeFileValid p = true →
      ∃ q, (ProjectStoreState.deleteFile n s).project = some q ∧
        activeFileValid q = true ∧
        (p.activeFile ≠ some n → q.activeFile = p.activeFile) ∧
        (p.activeFile = some n →
          q.activeFile = ((p.files.filter (fun f => f.name != n)).head?).map
            ProjectFile.name)) := by
  constructor
  · intro files
    cases ha : p.activeFile with
    | none =>
      refine ⟨{ p with files := files, activeFile := (files.head?).map ProjectFile.name }, by simp [ProjectStoreState.setFiles, hp, ha], activeFileValid_mk_head p files, ?_, fun _ => rfl⟩
      intro a haa
      exact Option.noConfusion haa
    | some a =>
      cases hf : files.find? (fun f => f.name == a) with
      | some f =>
        have hfa : (f.name == a) = true :=
          List.find?_some (p := fun g : ProjectFile => g.name == a) hf
        have hmem := List.mem_of_find?_eq_some hf
        refine ⟨{ p with files := files, activeFile := some f.name }, by simp [ProjectStoreState.setFiles, hp, ha, hf], ?_, ?_, ?_⟩
        · show activeFileValid _ = true
          simp only [activeFileValid]
          rw [List.any_eq_true]
          exact ⟨f, hmem, by simp⟩
        · intro a2 haa _
          cases haa
          show some f.name = some a
          simpa using hfa
        · intro hmatch
          have hm2 : (files.any fun f => f.name == a) = false := hmatch
          have hany : files.any (fun f => f.name == a) = true := by
            rw [List.any_eq_true]
            exact ⟨f, hmem, hfa⟩
          simp [hm2] at hany
      | none =>
        refine ⟨{ p with files := files, activeFile := (files.head?).map ProjectFile.name }, by simp [ProjectStoreState.setFiles, hp, ha, hf], activeFileValid_mk_head p files, ?_, fun _ => rfl⟩
        intro a2 haa hany
        cases haa
        rw [List.any_eq_true] at hany
        obtain ⟨f, hfm, hfa⟩ := hany
        have hsome : (files.find? (fun g => g.name == a)).isSome := by
          rw [List.find?_isSome]
          exact ⟨f, hfm, hfa⟩
        rw [hf] at hsome
        simp at hsome
  · intro n hvalid
    by_cases hpn : p.activeFile = some n
    · refine ⟨{ p with files := p.files.filter (fun f => f.name != n), activeFile := ((p.files.filter (fun f => f.name != n)).head?).map ProjectFile.name }, by simp [ProjectStoreState.deleteFile, hp, hpn], ?_, ?_, fun _ => rfl⟩
      · exact activeFileValid_mk_head p _
      · intro hne
        exact absurd hpn hne
    · refine ⟨{ p with files := p.files.filter (fun f => f.name != n), activeFile := p.activeFile }, by simp [ProjectStoreState.deleteFile, hp, hpn], ?_, fun _ => rfl, ?_⟩
      · cases ha : p.activeFile with
        | none => simp [activeFileValid, ha]
        | some a =>
          simp only [activeFileValid, ha]
          simp only [activeFileValid, ha] at hvalid
          rw [List.any_eq_true] at hvalid
          obtain ⟨f, hfm, hfa⟩ := hvalid
          rw [List.any_eq_true]
          refine ⟨f, ?_, hfa⟩
          rw [List.mem_filter]
          refine ⟨hfm, ?_⟩
          have hfa2 : f.name = a := by simpa using hfa
          have han : a ≠ n := by
            intro h
            exact hpn (by rw [ha, h])
          simp [hfa2, han]
      · intro h
        exact absurd h hpn

/-- Witness for C10 on `exStore`: replacing the collection by `[exFileB]`
and deleting the selected `a.ts`. -/
theorem selection_validity_invariant_witness :
    exStore.project = some exProject ∧
    activeFileValid exProject = true ∧
    (∃ q, (ProjectStoreState.setFiles [exFileB] exStore).project = some q ∧
      activeFileValid q = true ∧
      (∀ a, exProject.activeFile = some a →
        [exFileB].any (fun f => f.name == a) = true → q.activeFile = some a) ∧
      ((match exProject.activeFile with
        | some a => [exFileB].any (fun f => f.name == a) = false
        | none => True) →
        q.activeFile = ([exFileB].head?).map ProjectFile.name)) ∧
    (∃ q, (ProjectStoreState.deleteFile "a.ts" exStore).project = some q ∧
      activeFileValid q = true ∧
      (exProject.activeFile ≠ some "a.ts" → q.activeFile = exProject.activeFile) ∧
      (exProject.activeFile = some "a.ts" →
        q.activeFile = ((exProject.files.filter (fun f => f.name != "a.ts")).head?).map
          ProjectFile.name)) := by
  have h := selection_validity_invariant exStore exProject rfl
  exact ⟨rfl, by decide, h.1 [exFileB], h.2 "a.ts" (by decide)⟩
